import Mathlib

/-!
Verification development for the lambdaconnect-js offline-first
synchronization engine.  The definitions below are a shallow embedding of
the TypeScript sources: JavaScript values are modelled by an inductive
type, records by association lists, tables by lists of rows, and the
stateful sync / validation routines by pure functions returning explicit
results.  Theorems at the end settle the specification claims.
-/

namespace LambdaConnect

/-- JavaScript runtime values as they occur in validated write payloads and
synchronized rows.  `vNaN` is the NaN number, `vDate` is a `Date` object
(`none` = invalid date). -/
inductive JSVal where
  | vUndef
  | vNull
  | vNum (n : Int)
  | vNaN
  | vBool (b : Bool)
  | vStr (s : String)
  | vArr (elems : List JSVal)
  | vDate (ms : Option Int)
deriving Repr

namespace JSVal

/-- The JavaScript `typeof` operator. -/
def jsTypeof : JSVal → String
  | vUndef => "undefined"
  | vNull => "object"
  | vNum _ => "number"
  | vNaN => "number"
  | vBool _ => "boolean"
  | vStr _ => "string"
  | vArr _ => "object"
  | vDate _ => "object"

/-- `Number.isNaN` : true only for the NaN number value; any non-number
argument (including a `Date` object) yields `false`. -/
def numberIsNaN : JSVal → Bool
  | vNaN => true
  | _ => false

/-- `Array.isArray`. -/
def isArray : JSVal → Bool
  | vArr _ => true
  | _ => false

end JSVal

open JSVal

/-- JavaScript `ToNumber` on the string fragment exercised by the library:
an optionally signed run of decimal digits (after trimming), with the empty
string converting to `0`.  Other numeric literal forms (decimals,
exponents, hex) are not produced by any input considered here.  `none`
stands for NaN. -/
def strToNum (s : String) : Option Int :=
  let isWsp : Char → Bool := fun c => c = ' ' ∨ c = '\t' ∨ c = '\n' ∨ c = '\r'
  let t := ((s.data.dropWhile isWsp).reverse.dropWhile isWsp).reverse
  if t.isEmpty then some 0
  else
    let (sign, digits) :=
      match t with
      | '-' :: rest => ((-1 : Int), rest)
      | '+' :: rest => ((1 : Int), rest)
      | _ => ((1 : Int), t)
    if ¬digits.isEmpty ∧ digits.all (fun c => c.isDigit) then
      some (sign * ((digits.foldl (fun acc c => acc * 10 + (c.toNat - 48)) 0 : ℕ) : Int))
    else none

/-- JavaScript `ToNumber` for the relational comparison against a numeric
constraint; `none` stands for NaN.  Array coercion (via string join) is not
exercised by any schema considered here and maps to NaN. -/
def toNumber : JSVal → Option Int
  | vUndef => none
  | vNull => some 0
  | vNum n => some n
  | vNaN => none
  | vBool b => some (if b then 1 else 0)
  | vStr s => strToNum s
  | vArr _ => none
  | vDate ms => ms

/-- JavaScript `x < q` where `q` is a number: `ToNumber(x) < q`, false when
either side is NaN. -/
def jsLT (x : JSVal) (q : Int) : Bool :=
  match toNumber x with
  | none => false
  | some n => n < q

/-- JavaScript `x > q` where `q` is a number: `ToNumber(x) > q`, false when
either side is NaN. -/
def jsGT (x : JSVal) (q : Int) : Bool :=
  match toNumber x with
  | none => false
  | some n => n > q

/-- The JavaScript `.length` property access: defined for strings and
arrays, `undefined` otherwise. -/
def jsLength : JSVal → JSVal
  | vStr s => vNum s.length
  | vArr l => vNum l.length
  | _ => vUndef

/-- Truthiness of an optional numeric constraint field (`constraints.x &&`):
absent or `0` is falsy. -/
def optTruthy : Option Int → Bool
  | none => false
  | some q => q ≠ 0

/-- A JavaScript object (record / payload) as an association list with
unique keys. -/
abbrev JsObj := List (String × JSVal)

/-- Property read `o[k]`: `undefined` when the key is absent. -/
def jsGet (o : JsObj) (k : String) : JSVal :=
  match o.find? (fun p => p.1 = k) with
  | some p => p.2
  | none => vUndef

/-- `Object.keys`. -/
def jsKeys (o : JsObj) : List String := o.map (·.1)

/-- Key presence (`Object.keys(o).includes(k)`). -/
def jsHasKey (o : JsObj) (k : String) : Bool := (jsKeys o).contains k

/-- `isNullish` from the validator source: `undefined` or `null`. -/
def isNullish : JSVal → Bool
  | vUndef => true
  | vNull => true
  | _ => false

/-- `isNumericBoolean` from the validator source: `value === 0 || value === 1`. -/
def isNumericBoolean : JSVal → Bool
  | vNum n => n = 0 ∨ n = 1
  | _ => false

/-- `isISODate` from the validator source, translated verbatim: a string of
length 24 for which `!Number.isNaN(new Date(value))` holds.  `dateParse` is
the external `Date` constructor (ms since epoch, `none` when the string is
unparseable). -/
def isISODate (dateParse : String → Option Int) : JSVal → Bool
  | vStr s =>
    if s.length ≠ 24 then false
    else !numberIsNaN (vDate (dateParse s))
  | _ => false

/-- Semantic attribute types of the validation schema. -/
inductive AttrType where
  | boolean
  | number
  | str
  | date
deriving DecidableEq, Repr

/-- The `typeof`-style name an `AttrType` is compared against in the
validator (`typeof attributeValue !== type`). -/
def AttrType.typeName : AttrType → String
  | .boolean => "boolean"
  | .number => "number"
  | .str => "string"
  | .date => "date"

/-- Validation constraints of one attribute, as produced by the model
parser. -/
structure Constraints where
  required : Bool
  minValue : Option Int
  maxValue : Option Int
  minLength : Option Int
  maxLength : Option Int
  regex : Option String
deriving DecidableEq, Repr

/-- Constraints record carrying only a required flag. -/
def Constraints.plain (req : Bool) : Constraints :=
  ⟨req, none, none, none, none, none⟩

/-- One attribute entry of a table validation schema. -/
structure AttrInfo where
  type : AttrType
  constraints : Constraints
deriving DecidableEq, Repr

/-- One relationship entry of a table validation schema. -/
structure RelInfo where
  destinationEntity : String
  toMany : Bool
deriving DecidableEq, Repr

/-- Per-table validation schema. -/
structure TableSchema where
  attributes : List (String × AttrInfo)
  relationships : List (String × RelInfo)
deriving DecidableEq, Repr

/-- The `failedConstraint` kinds of `DatabaseValidationError`. -/
inductive FailedConstraint where
  | required
  | typeError
  | maxValue
  | minValue
  | maxLength
  | minLength
  | regex
  | unknownKey
  | toMany
  | toOne
deriving DecidableEq, Repr

/-- A raised `DatabaseValidationError` (bad attribute plus failed kind). -/
structure VErr where
  badAttribute : String
  failedConstraint : FailedConstraint
deriving DecidableEq, Repr

/-- Bookkeeping fields skipped by the per-attribute loop. -/
def autoAddedAttributes : List String := ["uuid", "active", "createdAt", "updatedAt"]

/-- The per-attribute body of `validateDexie` (the `modelAttributes.forEach`
loop), translated check by check from the source.  Returns the first error
raised for this attribute, or `none`.  `regexTest r v` is the external
`new RegExp(r).test(v)`; `dateParse` is the external `Date` constructor. -/
def checkAttribute (regexTest : String → JSVal → Bool)
    (dateParse : String → Option Int) (checkRequired : Bool) (objectToAdd : JsObj)
    (name : String) (info : AttrInfo) : Option VErr :=
  if autoAddedAttributes.contains name then none
  else
    let c := info.constraints
    let value := jsGet objectToAdd name
    let present := jsHasKey objectToAdd name
    if ¬c.required ∧ (¬present ∨ isNullish value) then none
    else if checkRequired ∧ c.required ∧ ¬present then
      some ⟨name, .required⟩
    else if jsTypeof value ≠ info.type.typeName ∧
        (info.type = .boolean ∨ info.type = .date) ∧
        ((info.type = .boolean ∧ ¬isNumericBoolean value) ∨
         (info.type = .date ∧ ¬isISODate dateParse value)) then
      some ⟨name, .typeError⟩
    else if jsTypeof value ≠ info.type.typeName ∧
        ¬(info.type = .boolean ∨ info.type = .date) then
      some ⟨name, .typeError⟩
    else if optTruthy c.maxValue ∧ jsGT value ((c.maxValue).getD 0) then
      some ⟨name, .maxValue⟩
    else if optTruthy c.minValue ∧ jsLT value ((c.minValue).getD 0) then
      some ⟨name, .minValue⟩
    else if optTruthy c.maxLength ∧ jsGT (jsLength value) ((c.maxLength).getD 0) then
      some ⟨name, .maxLength⟩
    else if optTruthy c.minLength ∧ jsLT value ((c.minLength).getD 0) then
      some ⟨name, .minLength⟩
    else
      match c.regex with
      | some r => if ¬regexTest r value then some ⟨name, .regex⟩ else none
      | none => none

/-- The relationship checks of `validateDexie` for one relationship field. -/
def checkRelationship (objectToAdd : JsObj) (name : String) (info : RelInfo) :
    Option VErr :=
  if jsHasKey objectToAdd name ∧ ¬isNullish (jsGet objectToAdd name) then
    let value := jsGet objectToAdd name
    if info.toMany then
      match value with
      | vArr elems =>
        if elems.all (fun e => jsTypeof e = "string") then none
        else some ⟨name, .toMany⟩
      | _ => some ⟨name, .toMany⟩
    else
      if isArray value then some ⟨name, .toOne⟩
      else if jsTypeof value ≠ "string" then some ⟨name, .toOne⟩
      else none
  else none

/-- `validateDexie` from the source, as a function returning the first
`DatabaseValidationError` thrown (or `none` when the payload validates):
attributes are checked in schema order, then relationships, then unknown
keys. -/
def validateDexie (regexTest : String → JSVal → Bool)
    (dateParse : String → Option Int) (schema : TableSchema)
    (objectToAdd : JsObj) (checkRequired : Bool) : Option VErr :=
  let attrErr := schema.attributes.findSome?
    (fun p => checkAttribute regexTest dateParse checkRequired objectToAdd p.1 p.2)
  match attrErr with
  | some e => some e
  | none =>
    let relErr := schema.relationships.findSome?
      (fun p => checkRelationship objectToAdd p.1 p.2)
    match relErr with
    | some e => some e
    | none =>
      let allPossible := schema.relationships.map (·.1) ++ schema.attributes.map (·.1)
      (jsKeys objectToAdd).findSome?
        (fun k => if ¬allPossible.contains k then some ⟨k, .unknownKey⟩ else none)

/-! ## Sync manager (`src/sync-manager.ts`) -/

/-- Generic association-list assignment with JavaScript object semantics:
overwrite in place when the key exists, append otherwise.  (JavaScript
object keys are unique, so overwriting the first occurrence is exact.) -/
def assocSet {α : Type} (l : List (String × α)) (k : String) (v : α) :
    List (String × α) :=
  match l with
  | [] => [(k, v)]
  | p :: t => if p.1 = k then (k, v) :: t else p :: assocSet t k v

/-- A locally stored record.  `uuid` is the `$$uuid` primary key;
`isSuitableForPush` (the dirty flag) and `syncRevision` are the bookkeeping
fields the sync manager reads and writes (`none` models an absent
property); the remaining payload is `fields`. -/
structure Row where
  uuid : String
  isSuitableForPush : Option Nat
  syncRevision : Option Nat
  fields : JsObj
deriving Repr

/-- Local storage: one list of rows per entity table. -/
abbrev LocalDB := List (String × List Row)

/-- The rows of one entity table (empty for an unknown table). -/
def tableOf (db : LocalDB) (e : String) : List Row :=
  ((db.find? (fun p => p.1 = e)).map (fun p => p.2)).getD []

/-- The rows matched by `where("isSuitableForPush").equals(1)`. -/
def dirtyRows (rows : List Row) : List Row :=
  rows.filter (fun r => r.isSuitableForPush = some 1)

/-- `delete entity.isSuitableForPush` applied to a row copy. -/
def stripFlag (r : Row) : Row := { r with isSuitableForPush := none }

/-- The push request body of `_syncPush`: for every entity of the model (in
model order) its dirty rows with the dirty flag removed; entities with no
dirty rows are dropped. -/
def pushBody (entityNames : List String) (db : LocalDB) :
    List (String × List Row) :=
  entityNames.filterMap (fun e =>
    let d := dirtyRows (tableOf db e)
    if d.isEmpty then none else some (e, d.map stripFlag))

/-- Parsed JSON body of a push response. `rejectedFields` maps an object
key to the per-object lists of rejected field names
(`Object.values(data["rejected-fields"][key])`). -/
structure PushRespBody where
  success : Bool
  errorCode : Option Int
  rejectedObjects : List String
  rejectedFields : List (String × List (List String))
deriving Repr

/-- A push HTTP response: status plus JSON body (`none` = unparseable). -/
structure PushResponse where
  status : Nat
  body : Option PushRespBody
deriving Repr

/-- Errors thrown by `sync()`: `DatabaseSyncError` of kind push or pull
(with its `error-code`), `SyncConflictError`, or the unhandled exception
from `pushResponse.json()` failing on a 200 response. -/
inductive SyncErr where
  | pushErr (code : Int)
  | pullErr (code : Int)
  | conflict
  | jsonParse
deriving DecidableEq, Repr

/-- JavaScript `x["error-code"] || -1` (absent or `0` both yield `-1`). -/
def jsOrMinusOne : Option Int → Int
  | some c => if c = 0 then -1 else c
  | none => -1

/-- Rejected-object keys not covered by the rejection whitelist. -/
def checkedRejectedObjects (wl : List String) (b : PushRespBody) : List String :=
  b.rejectedObjects.filter (fun k => ¬wl.contains k)

/-- Rejected-field keys whose key is not whitelisted and which keep at
least one non-whitelisted field name after flattening. -/
def checkedRejectedFields (wl : List String) (b : PushRespBody) : List String :=
  (b.rejectedFields.filter (fun p =>
    let rejectedNotWhitelisted := p.2.flatten.filter (fun f => ¬wl.contains f)
    ¬wl.contains p.1 ∧ ¬rejectedNotWhitelisted.isEmpty)).map (fun p => p.1)

/-- Result of the push phase: the request body actually submitted (`none` =
no network call) and the outcome (`ok b` is the returned `{success: b}`,
`error` a thrown exception). -/
structure PushPhase where
  request : Option (List (String × List Row))
  outcome : Except SyncErr Bool

/-- `_syncPush`, as a function of the local database and the server
response. -/
def syncPush (wl : List String) (entityNames : List String) (db : LocalDB)
    (resp : PushResponse) : PushPhase :=
  let reqBody := pushBody entityNames db
  if reqBody.isEmpty then ⟨none, .ok true⟩
  else
    ⟨some reqBody,
      if resp.status ≠ 200 then
        match resp.body with
        | some b =>
          if b.errorCode = some 42 then .ok false
          else .error (.pushErr (jsOrMinusOne b.errorCode))
        | none => .error (.pushErr (jsOrMinusOne none))
      else
        match resp.body with
        | none => .error .jsonParse
        | some b =>
          if ¬b.success then .error (.pushErr (jsOrMinusOne b.errorCode))
          else if ¬(checkedRejectedObjects wl b).isEmpty ∨
              ¬(checkedRejectedFields wl b).isEmpty then .error .conflict
          else .ok true⟩

/-- `orderBy("syncRevision").last()?.syncRevision`: the largest
`syncRevision` present in the table (rows without the field are absent
from the index). -/
def maxSyncRevision (rows : List Row) : Option Nat :=
  (rows.filterMap (fun r => r.syncRevision)).max?

/-- The pull request body (`entityLastRevisions`): each entity of the model
mapped to `0` when forcing a full pull, and otherwise to
`lastSyncRevision ? lastSyncRevision + 1 : 0`. -/
def pullRevisions (entityNames : List String) (db : LocalDB)
    (forcePullAll : Bool) : List (String × Nat) :=
  if forcePullAll then entityNames.map (fun e => (e, 0))
  else
    entityNames.map (fun e =>
      (e, match maxSyncRevision (tableOf db e) with
          | some r => if r = 0 then 0 else r + 1
          | none => 0))

/-- Parsed JSON body of a pull response; `data` is the result of
`JSON.parse(body.data)`. -/
structure PullRespBody where
  success : Bool
  errorCode : Option Int
  data : List (String × List Row)
deriving Repr

/-- A pull HTTP response: status plus JSON body (`none` = unparseable). -/
structure PullResponse where
  status : Nat
  body : Option PullRespBody
deriving Repr

/-- `bulkPut` of one row: replace the row with the same primary key, or
append when the key is new. -/
def putRow (rows : List Row) (r : Row) : List Row :=
  if rows.any (fun x => x.uuid = r.uuid) then
    rows.map (fun x => if x.uuid = r.uuid then r else x)
  else rows ++ [r]

/-- `Table.bulkPut`: upsert every row of the batch, in order. -/
def bulkPut (rows : List Row) (batch : List Row) : List Row :=
  batch.foldl putRow rows

/-- `entity.isSuitableForPush = 0` before the put. -/
def setFlagZero (r : Row) : Row := { r with isSuitableForPush := some 0 }

/-- Replace the contents of one table of the database (table names are
unique, so updating the first occurrence is exact). -/
def updateTable (db : LocalDB) (e : String) (f : List Row → List Row) :
    LocalDB :=
  match db with
  | [] => [(e, f [])]
  | p :: t => if p.1 = e then (p.1, f p.2) :: t else p :: updateTable t e f

/-- `monitoredBulkPut`: inside one transaction tagged `__syncTransaction`,
force every incoming record's dirty flag to `0` and `bulkPut` it into its
entity table. -/
def monitoredBulkPut (db : LocalDB) (data : List (String × List Row)) :
    LocalDB :=
  data.foldl
    (fun acc p => updateTable acc p.1 (fun rows => bulkPut rows (p.2.map setFlagZero)))
    db

/-- `_syncPull`: returns the revision-cursor request body submitted and
either the merged database or the thrown `DatabaseSyncError` of kind
pull. -/
def syncPull (entityNames : List String) (db : LocalDB) (resp : PullResponse)
    (forcePullAll : Bool) : List (String × Nat) × Except SyncErr LocalDB :=
  (pullRevisions entityNames db forcePullAll,
    match resp.body with
    | none => .error (.pullErr (jsOrMinusOne none))
    | some b =>
      if resp.status ≠ 200 ∨ ¬b.success then
        .error (.pullErr (jsOrMinusOne b.errorCode))
      else .ok (monitoredBulkPut db b.data))

/-- Options of one `sync()` invocation. -/
structure SyncOptions where
  skipPush : Bool
  skipPull : Bool
  forcePullAll : Bool
deriving DecidableEq, Repr

/-- The default `sync()` call (no options). -/
def SyncOptions.defaults : SyncOptions := ⟨false, false, false⟩

/-- Observable behaviour of one `sync()` invocation: the push and pull
requests actually submitted (`none` = phase skipped or no network call),
the final local database, and the rejection thrown (`none` = the returned
promise resolves). -/
structure SyncRun where
  pushRequest : Option (List (String × List Row))
  pullRequest : Option (List (String × Nat))
  finalDb : LocalDB
  thrown : Option SyncErr

/-- `sync()`: push unless skipped; on a soft push failure (`success:
false`) skip the pull of this cycle; otherwise pull unless skipped.
Errors of either phase propagate as a rejection. -/
def sync (wl : List String) (entityNames : List String) (db : LocalDB)
    (pushResp : PushResponse) (pullResp : PullResponse) (opts : SyncOptions) :
    SyncRun :=
  let runPull (pushReq : Option (List (String × List Row))) : SyncRun :=
    let pull := syncPull entityNames db pullResp opts.forcePullAll
    match pull.2 with
    | .ok db2 => ⟨pushReq, some pull.1, db2, none⟩
    | .error e => ⟨pushReq, some pull.1, db, some e⟩
  if opts.skipPush then
    if opts.skipPull then ⟨none, none, db, none⟩ else runPull none
  else
    let pp := syncPush wl entityNames db pushResp
    match pp.outcome with
    | .error e => ⟨pp.request, none, db, some e⟩
    | .ok succ =>
      if opts.skipPull ∨ ¬succ then ⟨pp.request, none, db, none⟩
      else runPull pp.request

/-! ## Write-guard hooks (`src/database.ts`) -/

/-- Property write `o[k] = v`. -/
def jsSet (o : JsObj) (k : String) (v : JSVal) : JsObj := assocSet o k v

/-- `delete o[k]`. -/
def jsDelete (o : JsObj) (k : String) : JsObj := o.filter (fun p => p.1 ≠ k)

/-- Test for the `undefined` value. -/
def isUndef : JSVal → Bool
  | vUndef => true
  | _ => false

/-- Strict equality with the number `0` (`=== 0`). -/
def isStrictNumZero : JSVal → Bool
  | vNum n => n = 0
  | _ => false

/-- Environment of a local write: current ISO timestamp and the uuid the
generator would produce. -/
structure WriteEnv where
  nowISO : String
  freshUuid : String
deriving DecidableEq, Repr

/-- The `creating` hook: outside a sync transaction it dirties the object,
assigns a uuid when absent, stamps both timestamps and defaults `active`
to `1`; inside a sync transaction it does nothing. -/
def createHook (syncTx : Bool) (env : WriteEnv) (obj : JsObj) : JsObj :=
  if syncTx then obj
  else
    let o1 := jsSet obj "isSuitableForPush" (vNum 1)
    let o2 := if isUndef (jsGet o1 "uuid") then jsSet o1 "uuid" (vStr env.freshUuid) else o1
    let o3 := jsSet (jsSet o2 "createdAt" (vStr env.nowISO)) "updatedAt" (vStr env.nowISO)
    if isUndef (jsGet o3 "active") then jsSet o3 "active" (vNum 1) else o3

/-- The `updating` hook: outside a sync transaction and for a non-empty
change-set it returns the additional modifications (dirty flag, removal of
the `__isSuitableForPush` marker, `updatedAt` stamp, and `active` defaulted
to `1` unless the change-set carries a numeric `active`); otherwise it
returns nothing. -/
def updateHookExtra (syncTx : Bool) (nowISO : String) (mods : JsObj) :
    Option JsObj :=
  if syncTx then none
  else if mods.isEmpty then none
  else
    some
      [("isSuitableForPush",
          if isStrictNumZero (jsGet mods "__isSuitableForPush") then vNum 0 else vNum 1),
       ("__isSuitableForPush", vUndef),
       ("updatedAt", vStr nowISO),
       ("active",
          if jsTypeof (jsGet mods "active") = "number" then jsGet mods "active" else vNum 1)]

/-- Apply a Dexie modifications object to a stored record: a key with value
`undefined` is removed, any other key is assigned. -/
def applyMods (o : JsObj) (mods : JsObj) : JsObj :=
  mods.foldl (fun acc p => if isUndef p.2 then jsDelete acc p.1 else jsSet acc p.1 p.2) o

/-- One update through the guarded path: the caller's change-set merged
with the extra modifications returned by the `updating` hook (the hook's
keys win), applied to the stored record. -/
def applyGuardedUpdate (syncTx : Bool) (nowISO : String) (row : JsObj)
    (mods : JsObj) : JsObj :=
  match updateHookExtra syncTx nowISO mods with
  | none => applyMods row mods
  | some extra => applyMods row (mods ++ extra)

/-! ## Change notifier and view-model registry (`src/database.ts`) -/

/-- A registered view model: its unique name and declared read-set. -/
structure VMSpec where
  name : String
  readTables : List String
deriving DecidableEq, Repr

/-- `reloadChangedViewModels`: the names of the registered view models
whose reload action is dispatched for a batch of changed object stores
(none when the database is not open or no store is attached). -/
def reloadChangedViewModels (isOpen storeSet : Bool)
    (registered : List VMSpec) (changedObjectStores : List String) :
    List String :=
  if ¬isOpen ∨ ¬storeSet then []
  else
    (registered.filter
      (fun vm => changedObjectStores.any (fun os => vm.readTables.contains os))).map
      (fun vm => vm.name)

/-- One entry of a Dexie observable change batch. -/
structure ChangeEvent where
  table : String
deriving DecidableEq, Repr

/-- The `changes` listener registered in `initialize`: ignore the batch
while changes are frozen, when it is partial (`incompleteBatch`), or when
it is empty; otherwise reload the affected view models. -/
def changesListener (isChangesFrozen incompleteBatch : Bool)
    (changes : List ChangeEvent) (isOpen storeSet : Bool)
    (registered : List VMSpec) : List String :=
  if isChangesFrozen ∨ incompleteBatch ∨ changes.isEmpty then []
  else
    reloadChangedViewModels isOpen storeSet registered
      (changes.map (fun c => c.table))

/-! ## Model parser, schema hash and initialization (`src/utils/modelParser.ts`,
`src/utils/hashCode.js`, `src/database.ts`) -/

/-- A parsed `<attribute>` node (`attr` values after XML parsing; string
attributes that may be absent are `Option`). -/
structure RawAttr where
  name : String
  optional : Option String
  attributeType : String
  minValueString : Option Int
  maxValueString : Option Int
  regularExpressionString : Option String
deriving DecidableEq, Repr

/-- A parsed `<relationship>` node. -/
structure RawRel where
  name : String
  optional : Option String
  destinationEntity : String
  toMany : Option String
deriving DecidableEq, Repr

/-- A parsed `<entity>` node. -/
structure RawEntity where
  name : String
  syncable : Option String
  attributes : List RawAttr
  relationships : List RawRel
deriving DecidableEq, Repr

/-- A parsed schema document (the `model.entity` list). -/
abbrev RawDoc := List RawEntity

/-- Raw types mapped to `number`. -/
def numberTypes : List String :=
  ["Double", "Integer 64", "Integer 16", "Integer 32", "Float"]

/-- Raw types mapped to `string`. -/
def stringTypes : List String := ["String", "UUID", "URI"]

/-- Truthiness of an optional string (absent or empty is falsy). -/
def strTruthy : Option String → Bool
  | some s => s ≠ ""
  | none => false

/-- `getAttributeConstraints`: semantic type and validation constraints of
one raw attribute. -/
def getAttributeConstraints (a : RawAttr) : AttrType × Constraints :=
  let ty : AttrType :=
    if numberTypes.contains a.attributeType then .number
    else if stringTypes.contains a.attributeType then .str
    else if a.attributeType = "Date" then .date
    else .boolean
  let minV := if (a.minValueString).isSome ∧ ty = .number then a.minValueString else none
  let minL := if (a.minValueString).isSome ∧ ty ≠ .number then a.minValueString else none
  let maxV := if (a.maxValueString).isSome ∧ ty = .number then a.maxValueString else none
  let maxL := if (a.maxValueString).isSome ∧ ty ≠ .number then a.maxValueString else none
  let rgx := if strTruthy a.regularExpressionString then a.regularExpressionString else none
  (ty, ⟨¬(a.optional = some "YES"), minV, maxV, minL, maxL, rgx⟩)

/-- One attribute of the database model schema (`attributeType` is the raw
type tag, or `"relationship"`; `toMany` is falsy for plain attributes). -/
structure ModelAttribute where
  name : String
  optional : Bool
  attributeType : String
  indexed : Bool
  toMany : Bool
deriving DecidableEq, Repr

/-- One entity of the database model schema. -/
structure ModelEntity where
  name : String
  syncable : Bool
  attributes : List (String × ModelAttribute)
deriving DecidableEq, Repr

/-- The parsed database model. -/
structure DatabaseModel where
  version : Nat
  entities : List (String × ModelEntity)
deriving DecidableEq, Repr

/-- The validation schema: one `TableSchema` per entity. -/
abbrev ValidationSchema := List (String × TableSchema)

/-- `modelParser`: build the database model and the validation schema from
a parsed schema document. -/
def modelParser (doc : RawDoc) : DatabaseModel × ValidationSchema :=
  let folded := doc.foldl
    (fun (acc : List (String × ModelEntity) × List (String × TableSchema)) e =>
      let base := e.attributes.foldl
        (fun (p : List (String × ModelAttribute) × List (String × AttrInfo)) a =>
          let tc := getAttributeConstraints a
          (assocSet p.1 a.name ⟨a.name, a.optional = some "YES", a.attributeType, false, false⟩,
           assocSet p.2 a.name ⟨tc.1, tc.2⟩))
        ([], [])
      let withRels := e.relationships.foldl
        (fun (p : List (String × ModelAttribute) × List (String × RelInfo)) r =>
          (assocSet p.1 r.name ⟨r.name, r.optional = some "YES", "relationship", false,
              r.toMany = some "YES"⟩,
           assocSet p.2 r.name ⟨r.destinationEntity, r.toMany = some "YES"⟩))
        (base.1, [])
      (assocSet acc.1 e.name ⟨e.name, e.syncable = some "YES", withRels.1⟩,
       assocSet acc.2 e.name ⟨base.2, withRels.2⟩))
    ([], [])
  (⟨1, folded.1⟩, folded.2)

/-- The Dexie store declaration string of one syncable entity: bookkeeping
indexes, relationship fields (`*`-prefixed when to-many), indexed
attributes other than `uuid`, and caller-supplied extra indexes, joined by
commas. -/
def entityIndexString (ent : ModelEntity) (extraIndexes : List String) : String :=
  String.intercalate ","
    (["$$uuid", "createdAt", "updatedAt", "isSuitableForPush", "syncRevision"] ++
     ((ent.attributes.map (fun p => p.2)).filter
        (fun a => a.attributeType = "relationship" ∨ (a.indexed ∧ a.name ≠ "uuid"))).map
        (fun a => if a.attributeType = "relationship" ∧ a.toMany then "*" ++ a.name else a.name) ++
     extraIndexes)

/-- The derived storage schema of `initialize`: every syncable entity
mapped to its store declaration string. -/
def deriveStorageSchema (model : DatabaseModel)
    (indexes : List (String × List String)) : List (String × String) :=
  model.entities.foldl
    (fun acc p =>
      if ¬p.2.syncable then acc
      else
        assocSet acc p.1
          (entityIndexString p.2 (((indexes.find? (fun q => q.1 = p.1)).map (fun q => q.2)).getD [])))
    []

/-- Wrap an integer to a 32-bit signed value (`| 0` / `& x` semantics). -/
def toInt32 (n : Int) : Int := (n + 2 ^ 31) % 2 ^ 32 - 2 ^ 31

/-- `hashCode`: the Java-style 32-bit string hash
(`hash = (hash << 5) - hash + charCode` with 32-bit wrapping).  Character
codes are modelled by code points, which agree with UTF-16 units on the
basic plane. -/
def hashCode (s : String) : Int :=
  if s.length = 0 then 0
  else s.data.foldl (fun h c => toInt32 (toInt32 (h * 32) - h + c.toNat)) 0

/-- `JSON.stringify` of the derived storage schema (a flat object with
string values; entity names and index strings contain no characters that
JSON escapes). -/
def encodeSchema (schema : List (String × String)) : String :=
  "\x7b" ++
    String.intercalate ","
      (schema.map (fun p => "\"" ++ p.1 ++ "\":\"" ++ p.2 ++ "\"")) ++
    "\x7d"

/-- The schema-hash check of `initialize`: parse the document, derive the
storage schema and its hash, compare with the persisted hash
(`Number(localStorage.getItem(...))`, `null` reading as `0`), truncate
exactly when the stored hash is truthy and differs, then persist the new
hash.  Returns (database deleted?, new persisted slot). -/
def initStep (stored : Option Int) (doc : RawDoc)
    (indexes : List (String × List String)) : Bool × Option Int :=
  let parsed := modelParser doc
  let schema := deriveStorageSchema parsed.1 indexes
  let received := hashCode (encodeSchema schema)
  let current : Int := stored.getD 0
  ((current != received) && (current != 0), some received)

/-! ## Claims about the write-guard validation (C6, C7, C8) -/

/-- Single-attribute schema with a date-typed attribute `d`. -/
def dateAttrSchema : TableSchema := ⟨[("d", ⟨.date, Constraints.plain true⟩)], []⟩

/-- Single-attribute schema with a boolean-typed attribute `b`. -/
def boolAttrSchema (req : Bool) : TableSchema :=
  ⟨[("b", ⟨.boolean, Constraints.plain req⟩)], []⟩

/-- Single-attribute schema with a string-typed attribute `s` carrying a
minLength constraint. -/
def strMinLenSchema (ml : Int) : TableSchema :=
  ⟨[("s", ⟨.str, ⟨true, none, none, some ml, none, none⟩⟩)], []⟩

/-- C6: the code accepts every 24-character string for a date-typed
attribute, even one the `Date` constructor cannot parse (here the date
parser rejects the string), because `Number.isNaN` applied to a `Date`
object is always `false`; the claim demands a `typeError` for unparseable
values. -/
theorem c6_unparseable_24_char_date_accepted
    (regexTest : String → JSVal → Bool) (dateParse : String → Option Int)
    (_hunparseable : dateParse "aaaaaaaaaaaaaaaaaaaaaaaa" = none) :
    validateDexie regexTest dateParse dateAttrSchema
      [("d", JSVal.vStr "aaaaaaaaaaaaaaaaaaaaaaaa")] true = none := by
  rfl

/-- C6 witness: a concrete date parser that rejects the 24-character string
still leads to acceptance. -/
theorem c6_unparseable_24_char_date_accepted_witness :
    (fun (_ : String) => (none : Option Int)) "aaaaaaaaaaaaaaaaaaaaaaaa" = none ∧
    validateDexie (fun _ _ => true) (fun _ => none) dateAttrSchema
      [("d", JSVal.vStr "aaaaaaaaaaaaaaaaaaaaaaaa")] true = none :=
  ⟨rfl, c6_unparseable_24_char_date_accepted (fun _ _ => true) (fun _ => none) rfl⟩

/-- C7 counterexample: the JavaScript boolean `true` is neither the number
`0` nor the number `1`, yet validation of a boolean-typed attribute accepts
it (no `typeError`), because a genuine boolean passes the `typeof` check. -/
theorem c7_counterexample :
    validateDexie (fun _ _ => true) (fun _ => none) (boolAttrSchema true)
      [("b", JSVal.vBool true)] true = none := by
  rfl

/-- C7 (amended): for a boolean-typed attribute with a present, non-null,
non-undefined value, validation accepts exactly the numbers `0` and `1` and
the JavaScript booleans `true` and `false`; every other value raises a
`typeError` naming the attribute. -/
theorem c7_boolean_accepts_numeric_and_js_booleans
    (regexTest : String → JSVal → Bool) (dateParse : String → Option Int)
    (req checkRequired : Bool) (v : JSVal)
    (hnull : v ≠ .vNull) (hundef : v ≠ .vUndef) :
    ((v = .vNum 0 ∨ v = .vNum 1 ∨ v = .vBool true ∨ v = .vBool false) →
      validateDexie regexTest dateParse (boolAttrSchema req) [("b", v)] checkRequired
        = none) ∧
    (¬(v = .vNum 0 ∨ v = .vNum 1 ∨ v = .vBool true ∨ v = .vBool false) →
      validateDexie regexTest dateParse (boolAttrSchema req) [("b", v)] checkRequired
        = some ⟨"b", .typeError⟩) := by
  constructor
  · rintro (rfl | rfl | rfl | rfl) <;>
      cases req <;> cases checkRequired <;>
      simp [validateDexie, boolAttrSchema, checkAttribute, autoAddedAttributes,
        jsGet, jsHasKey, jsKeys, isNullish, jsTypeof, AttrType.typeName,
        isNumericBoolean, Constraints.plain, optTruthy, List.findSome?]
  · intro hv
    cases v with
    | vNum n =>
      have hn : ¬(n = 0 ∨ n = 1) := by
        intro h
        rcases h with h | h
        · exact hv (Or.inl (by rw [h]))
        · exact hv (Or.inr (Or.inl (by rw [h])))
      cases req <;> cases checkRequired <;>
        simp [validateDexie, boolAttrSchema, checkAttribute, autoAddedAttributes,
          jsGet, jsHasKey, jsKeys, isNullish, jsTypeof, AttrType.typeName,
          isNumericBoolean, Constraints.plain, optTruthy, List.findSome?, hn]
    | vBool b =>
      cases b
      · exact absurd (Or.inr (Or.inr (Or.inr rfl))) hv
      · exact absurd (Or.inr (Or.inr (Or.inl rfl))) hv
    | vNull => exact absurd rfl hnull
    | vUndef => exact absurd rfl hundef
    | vNaN =>
      cases req <;> cases checkRequired <;>
        simp [validateDexie, boolAttrSchema, checkAttribute, autoAddedAttributes,
          jsGet, jsHasKey, jsKeys, isNullish, jsTypeof, AttrType.typeName,
          isNumericBoolean, Constraints.plain, optTruthy, List.findSome?]
    | vStr s =>
      cases req <;> cases checkRequired <;>
        simp [validateDexie, boolAttrSchema, checkAttribute, autoAddedAttributes,
          jsGet, jsHasKey, jsKeys, isNullish, jsTypeof, AttrType.typeName,
          isNumericBoolean, Constraints.plain, optTruthy, List.findSome?]
    | vArr elems =>
      cases req <;> cases checkRequired <;>
        simp [validateDexie, boolAttrSchema, checkAttribute, autoAddedAttributes,
          jsGet, jsHasKey, jsKeys, isNullish, jsTypeof, AttrType.typeName,
          isNumericBoolean, Constraints.plain, optTruthy, List.findSome?]
    | vDate ms =>
      cases req <;> cases checkRequired <;>
        simp [validateDexie, boolAttrSchema, checkAttribute, autoAddedAttributes,
          jsGet, jsHasKey, jsKeys, isNullish, jsTypeof, AttrType.typeName,
          isNumericBoolean, Constraints.plain, optTruthy, List.findSome?]

/-- C7 witness: the number `1` is accepted and the string `"1"` raises a
`typeError`, through the amended theorem at concrete inputs. -/
theorem c7_boolean_accepts_numeric_and_js_booleans_witness :
    JSVal.vNum 1 ≠ JSVal.vNull ∧
    validateDexie (fun _ _ => true) (fun _ => none) (boolAttrSchema true)
      [("b", JSVal.vNum 1)] true = none ∧
    validateDexie (fun _ _ => true) (fun _ => none) (boolAttrSchema true)
      [("b", JSVal.vStr "1")] true = some ⟨"b", .typeError⟩ :=
  ⟨by simp,
   (c7_boolean_accepts_numeric_and_js_booleans (fun _ _ => true) (fun _ => none)
      true true (JSVal.vNum 1) (by simp) (by simp)).1 (Or.inr (Or.inl rfl)),
   (c7_boolean_accepts_numeric_and_js_booleans (fun _ _ => true) (fun _ => none)
      true true (JSVal.vStr "1") (by simp) (by simp)).2 (by simp)⟩

/-- C8: the minLength check compares the attribute value itself (via
JavaScript number coercion) instead of its length, contradicting its own
error message: the string `"ab"` of length 2 passes a minLength-5
constraint without any error, while the string `"0"` of length 1 raises a
`minLength` error against a minLength-1 constraint it satisfies. -/
theorem c8_minlength_compares_value_not_length :
    validateDexie (fun _ _ => true) (fun _ => none) (strMinLenSchema 5)
      [("s", JSVal.vStr "ab")] true = none ∧
    "ab".length < 5 ∧
    validateDexie (fun _ _ => true) (fun _ => none) (strMinLenSchema 1)
      [("s", JSVal.vStr "0")] true = some ⟨"s", .minLength⟩ ∧
    ¬("0".length < 1) := by
  refine ⟨rfl, by decide, rfl, by decide⟩

/-! ## Claim about schema translation determinism (C9) -/

/-- C9: re-running initialization with the identical schema document (and
identical extra indexes) after a completed run reproduces the same storage
schema hash, so the truncate decision is `false` and the persisted hash
slot is unchanged: the local database is not deleted.  (Parsing and schema
derivation are pure functions, so the two runs produce equal model,
validation and storage schemas by construction.) -/
theorem c9_reinit_same_document_does_not_truncate
    (stored : Option Int) (doc : RawDoc) (indexes : List (String × List String)) :
    initStep (initStep stored doc indexes).2 doc indexes
      = (false, (initStep stored doc indexes).2) := by
  simp [initStep]

/-! ## Claim about the updating hook (C10) -/

/-- Key search after an association-list assignment. -/
theorem find?_assocSet {α : Type} (l : List (String × α)) (k : String) (v : α)
    (k0 : String) :
    (assocSet l k v).find? (fun p => p.1 = k0) =
      if k0 = k then some (k, v) else l.find? (fun p => p.1 = k0) := by
  induction l with
  | nil =>
    show List.find? _ [(k, v)] = _
    by_cases h : k0 = k
    · rw [if_pos h, List.find?_cons_of_pos _ (by simp [h.symm])]
    · rw [if_neg h,
        List.find?_cons_of_neg _ (by simpa using fun hh : k = k0 => h hh.symm),
        List.find?_nil]
  | cons p t ih =>
    by_cases hp : p.1 = k
    · simp only [assocSet, if_pos hp]
      by_cases h : k0 = k
      · subst h
        rw [if_pos rfl, List.find?_cons_of_pos _ (by simp)]
      · rw [if_neg h,
          List.find?_cons_of_neg _ (by simpa using fun hh : k = k0 => h hh.symm),
          List.find?_cons_of_neg _ (by simpa using fun hh : p.1 = k0 => h (hp ▸ hh).symm)]
    · simp only [assocSet, if_neg hp]
      by_cases h : p.1 = k0
      · have hk : ¬(k0 = k) := fun hh => hp (h.trans hh)
        rw [if_neg hk, List.find?_cons_of_pos _ (by simpa using h),
          List.find?_cons_of_pos _ (by simpa using h)]
      · rw [List.find?_cons_of_neg _ (by simpa using h), ih,
          List.find?_cons_of_neg _ (by simpa using h)]

/-- Reading back an association-list assignment. -/
theorem jsGet_assocSet (o : JsObj) (k : String) (v : JSVal) (k0 : String) :
    jsGet (assocSet o k v) k0 = if k0 = k then v else jsGet o k0 := by
  simp only [jsGet, find?_assocSet]
  by_cases h : k0 = k <;> simp [h]

/-- Key search after a key deletion. -/
theorem find?_jsDelete (o : JsObj) (k : String) (k0 : String) :
    (jsDelete o k).find? (fun p => p.1 = k0) =
      if k0 = k then none else o.find? (fun p => p.1 = k0) := by
  induction o with
  | nil => simp [jsDelete]
  | cons p t ih =>
    by_cases hp : p.1 = k
    · simp only [jsDelete] at ih ⊢
      rw [List.filter_cons_of_neg (by simpa using hp)]
      rw [ih]
      by_cases h : k0 = k
      · rw [if_pos h, if_pos h]
      · rw [if_neg h, if_neg h,
          List.find?_cons_of_neg _ (by simpa using fun hh : p.1 = k0 => h (hh.symm.trans hp))]
    · simp only [jsDelete] at ih ⊢
      rw [List.filter_cons_of_pos (by simpa using hp)]
      by_cases h : p.1 = k0
      · have hk : ¬(k0 = k) := fun hh => hp (h.trans hh)
        rw [if_neg hk, List.find?_cons_of_pos _ (by simpa using h),
          List.find?_cons_of_pos _ (by simpa using h)]
      · rw [List.find?_cons_of_neg _ (by simpa using h), ih,
          List.find?_cons_of_neg _ (by simpa using h)]

/-- Reading back a key deletion. -/
theorem jsGet_jsDelete (o : JsObj) (k : String) (k0 : String) :
    jsGet (jsDelete o k) k0 = if k0 = k then vUndef else jsGet o k0 := by
  simp only [jsGet, find?_jsDelete]
  by_cases h : k0 = k <;> simp [h]

/-- `applyMods` distributes over list concatenation of the change-sets. -/
theorem applyMods_append (o : JsObj) (m1 m2 : JsObj) :
    applyMods o (m1 ++ m2) = applyMods (applyMods o m1) m2 := by
  simp [applyMods, List.foldl_append]

/-- A value whose `typeof` is `"number"` is not `undefined`. -/
theorem not_undef_of_typeof_number (v : JSVal) (h : jsTypeof v = "number") :
    isUndef v = false := by
  cases v <;> simp_all [jsTypeof, isUndef]

/-- Reading the `active` key after applying the updating hook's extra
modification list: when neither the dirty-flag value nor the `active`
value is `undefined`, the stored `active` is the hook's `active` value. -/
theorem jsGet_applyMods_hook (o : JsObj) (flagv av : JSVal) (now : String)
    (hflag : isUndef flagv = false) (hav : isUndef av = false) :
    jsGet (applyMods o
      [("isSuitableForPush", flagv), ("__isSuitableForPush", vUndef),
       ("updatedAt", vStr now), ("active", av)]) "active" = av := by
  simp only [applyMods, List.foldl_cons, List.foldl_nil, hflag, hav]
  simp only [isUndef, Bool.false_eq_true, if_false, if_true]
  simp only [jsSet]
  rw [jsGet_assocSet]
  simp

/-- C10: through the guarded non-sync update path, an empty change-set
leaves the stored record entirely unchanged, while a non-empty change-set
forces the stored `active` field to `1` unless the change-set itself
carries a numeric `active` value, in which case that value is kept — so
updating any unrelated field of a soft-deleted record reactivates it. -/
theorem c10_guarded_update_reactivates
    (nowISO : String) (row : JsObj) (mods : JsObj) :
    (applyGuardedUpdate false nowISO row [] = row) ∧
    (mods ≠ [] → jsTypeof (jsGet mods "active") ≠ "number" →
      jsGet (applyGuardedUpdate false nowISO row mods) "active" = vNum 1) ∧
    (mods ≠ [] → jsTypeof (jsGet mods "active") = "number" →
      jsGet (applyGuardedUpdate false nowISO row mods) "active" = jsGet mods "active") := by
  have hkey : ∀ hne : mods ≠ [],
      applyGuardedUpdate false nowISO row mods =
        applyMods (applyMods row mods)
          [("isSuitableForPush",
              if isStrictNumZero (jsGet mods "__isSuitableForPush") then vNum 0 else vNum 1),
           ("__isSuitableForPush", vUndef),
           ("updatedAt", vStr nowISO),
           ("active",
              if jsTypeof (jsGet mods "active") = "number" then jsGet mods "active" else vNum 1)] := by
    intro hne
    have hme : mods.isEmpty = false := by
      cases mods with
      | nil => exact absurd rfl hne
      | cons a t => rfl
    have hex : updateHookExtra false nowISO mods =
        some
          [("isSuitableForPush",
              if isStrictNumZero (jsGet mods "__isSuitableForPush") then vNum 0 else vNum 1),
           ("__isSuitableForPush", vUndef),
           ("updatedAt", vStr nowISO),
           ("active",
              if jsTypeof (jsGet mods "active") = "number" then jsGet mods "active" else vNum 1)] := by
      simp only [updateHookExtra, hme]
      rfl
    simp only [applyGuardedUpdate, hex, applyMods_append]
  refine ⟨rfl, ?_, ?_⟩
  · intro hne hat
    rw [hkey hne]
    rw [jsGet_applyMods_hook]
    · rw [if_neg hat]
    · split <;> rfl
    · rw [if_neg hat]; rfl
  · intro hne hat
    rw [hkey hne]
    rw [jsGet_applyMods_hook]
    · rw [if_pos hat]
    · split <;> rfl
    · rw [if_pos hat]
      exact not_undef_of_typeof_number _ hat

/-- C10 witness: updating only `name` on a soft-deleted record
(`active = 0`) stores `active = 1`. -/
theorem c10_guarded_update_reactivates_witness :
    ([("name", vStr "y")] : JsObj) ≠ [] ∧
    jsTypeof (jsGet [("name", vStr "y")] "active") ≠ "number" ∧
    jsGet (applyGuardedUpdate false "2024-05-01T00:00:00.000Z"
        [("active", vNum 0), ("name", vStr "x")] [("name", vStr "y")]) "active" = vNum 1 :=
  ⟨by simp, by decide,
   (c10_guarded_update_reactivates "2024-05-01T00:00:00.000Z"
      [("active", vNum 0), ("name", vStr "x")] [("name", vStr "y")]).2.1
     (by simp) (by decide)⟩

/-! ## Claim about the change notifier (C5) -/

/-- C5: while changes are not frozen, for a non-partial, non-empty change
batch delivered to an open database with an attached store, a registered
view model is reloaded exactly when some changed table belongs to its
declared read-set. -/
theorem c5_reload_iff_read_set_intersects
    (frozen incomplete : Bool) (changes : List ChangeEvent)
    (isOpen storeSet : Bool) (registered : List VMSpec) (vm : VMSpec)
    (hf : frozen = false) (hp : incomplete = false) (hc : changes ≠ [])
    (ho : isOpen = true) (hs : storeSet = true)
    (hnames : (registered.map (fun x => x.name)).Nodup)
    (hvm : vm ∈ registered) :
    vm.name ∈ changesListener frozen incomplete changes isOpen storeSet registered ↔
      ∃ t ∈ changes.map (fun c => c.table), t ∈ vm.readTables := by
  subst hf hp ho hs
  have hce : changes.isEmpty = false := by
    cases changes with
    | nil => exact absurd rfl hc
    | cons a t => rfl
  simp only [changesListener, hce]
  rw [if_neg (by simp)]
  simp only [reloadChangedViewModels]
  rw [if_neg (by simp)]
  constructor
  · intro h
    rcases List.mem_map.1 h with ⟨vm2, hvm2, hname⟩
    rcases List.mem_filter.1 hvm2 with ⟨hvm2r, hcond⟩
    have hveq : vm2 = vm := List.inj_on_of_nodup_map hnames hvm2r hvm hname
    subst hveq
    rcases List.any_eq_true.1 hcond with ⟨os, hos, hosmem⟩
    exact ⟨os, hos, by simpa using hosmem⟩
  · intro h
    rcases h with ⟨t, ht, htmem⟩
    refine List.mem_map.2 ⟨vm, List.mem_filter.2 ⟨hvm, ?_⟩, rfl⟩
    exact List.any_eq_true.2 ⟨t, ht, by simpa using htmem⟩

/-- C5 witness: with read-set `{Client}`, a change to `Order` does not
reload the view model and a change to `Client` does. -/
theorem c5_reload_iff_read_set_intersects_witness :
    (¬("vmA" ∈ changesListener false false [⟨"Order"⟩] true true [⟨"vmA", ["Client"]⟩])) ∧
    ("vmA" ∈ changesListener false false [⟨"Client"⟩] true true [⟨"vmA", ["Client"]⟩]) :=
  ⟨fun h =>
    by
      have := (c5_reload_iff_read_set_intersects false false [⟨"Order"⟩] true true
        [⟨"vmA", ["Client"]⟩] ⟨"vmA", ["Client"]⟩ rfl rfl (by simp) rfl rfl
        (by simp) (by simp)).1 h
      simp at this,
   (c5_reload_iff_read_set_intersects false false [⟨"Client"⟩] true true
      [⟨"vmA", ["Client"]⟩] ⟨"vmA", ["Client"]⟩ rfl rfl (by simp) rfl rfl
      (by simp) (by simp)).2 ⟨"Client", by simp⟩⟩

/-! ## Claim about the pull revision cursor (C2) -/

/-- Looking up a key in a list tabulating a function over the keys. -/
theorem lookup_map_self {α : Type} (f : String → α) (l : List String)
    (e : String) (he : e ∈ l) :
    (l.map (fun x => (x, f x))).lookup e = some (f e) := by
  induction l with
  | nil => cases he
  | cons a t ih =>
    by_cases h : a = e
    · subst h
      simp [List.lookup]
    · have hne : (e == a) = false := beq_eq_false_iff_ne.2 (fun hh => h hh.symm)
      rcases List.mem_cons.1 he with h2 | h2
      · exact absurd h2.symm h
      · simpa [List.lookup, hne] using ih h2

/-- The first components of a list tabulating a function over keys. -/
theorem map_fst_tabulate {α : Type} (f : String → α) (l : List String) :
    (l.map (fun x => (x, f x))).map (fun p => p.1) = l := by
  induction l with
  | nil => rfl
  | cons a t ih => simp [ih]

/-- C2 counterexample: a stored record carries `syncRevision = 0` (so the
maximum stored revision exists and is `0`), yet the pull request asks for
revision `0`, not `0 + 1 = 1`, because `0` is falsy in JavaScript. -/
theorem c2_counterexample :
    maxSyncRevision (tableOf [("Client", [⟨"u1", some 0, some 0, []⟩])] "Client")
      = some 0 ∧
    pullRevisions ["Client"] [("Client", [⟨"u1", some 0, some 0, []⟩])] false
      = [("Client", 0)] :=
  ⟨rfl, rfl⟩

/-- C2 (amended): the pull request maps every entity of the model to `0`
when a full pull is forced, and otherwise to the maximum locally stored
`syncRevision` plus one — except that a maximum of `0`, like an absent
one, maps to `0` (JavaScript truthiness of the revision); the request
contains exactly the model's entities. -/
theorem c2_pull_revision_request (entityNames : List String) (db : LocalDB)
    (e : String) (he : e ∈ entityNames) :
    ((pullRevisions entityNames db true).lookup e = some 0) ∧
    ((pullRevisions entityNames db false).lookup e =
      some (match maxSyncRevision (tableOf db e) with
            | some r => if r = 0 then 0 else r + 1
            | none => 0)) ∧
    (∀ force : Bool,
      (pullRevisions entityNames db force).map (fun p => p.1) = entityNames) := by
  refine ⟨?_, ?_, ?_⟩
  · simp only [pullRevisions, if_pos rfl]
    exact lookup_map_self (fun _ => 0) entityNames e he
  · simp only [pullRevisions]
    rw [if_neg (by simp)]
    exact lookup_map_self
      (fun x => match maxSyncRevision (tableOf db x) with
                | some r => if r = 0 then 0 else r + 1
                | none => 0) entityNames e he
  · intro force
    cases force
    · simp only [pullRevisions]
      rw [if_neg (by simp)]
      exact map_fst_tabulate _ entityNames
    · simp only [pullRevisions, if_pos rfl]
      exact map_fst_tabulate _ entityNames

/-- C2 witness: after a pull stored `syncRevision = 5` for `Client`, the
next pull request asks for revision `6`. -/
theorem c2_pull_revision_request_witness :
    ("Client" ∈ ["Client"]) ∧
    (pullRevisions ["Client"] [("Client", [⟨"u1", some 0, some 5, []⟩])]
      false).lookup "Client" = some 6 :=
  ⟨by simp,
   (c2_pull_revision_request ["Client"] [("Client", [⟨"u1", some 0, some 5, []⟩])]
      "Client" (by simp)).2.1⟩

/-! ## Claim about the push payload (C3) -/

/-- The entity keys of the push body are exactly the entities with at
least one dirty row, in model order. -/
theorem pushBody_keys (entityNames : List String) (db : LocalDB) :
    (pushBody entityNames db).map (fun p => p.1) =
      entityNames.filter (fun e => !(dirtyRows (tableOf db e)).isEmpty) := by
  induction entityNames with
  | nil => rfl
  | cons a t ih =>
    simp only [pushBody, List.filterMap_cons] at ih ⊢
    cases h : (dirtyRows (tableOf db a)).isEmpty with
    | true => simp [h, ih]
    | false => simp [h, ih]

/-- The push body maps an entity with dirty rows to exactly its dirty rows
with the dirty flag removed. -/
theorem pushBody_lookup (entityNames : List String) (db : LocalDB) (e : String)
    (he : e ∈ entityNames) (hd : (dirtyRows (tableOf db e)).isEmpty = false) :
    (pushBody entityNames db).lookup e =
      some ((dirtyRows (tableOf db e)).map stripFlag) := by
  induction entityNames with
  | nil => cases he
  | cons a t ih =>
    by_cases hae : a = e
    · subst hae
      simp only [pushBody, List.filterMap_cons, hd]
      simp [List.lookup]
    · have hmem : e ∈ t := by
        rcases List.mem_cons.1 he with h2 | h2
        · exact absurd h2.symm hae
        · exact h2
      have hne : (e == a) = false := beq_eq_false_iff_ne.2 (fun hh => hae hh.symm)
      simp only [pushBody, List.filterMap_cons] at ih ⊢
      cases hda : (dirtyRows (tableOf db a)).isEmpty with
      | true => simpa [hda] using ih hmem
      | false => simpa [hda, List.lookup, hne] using ih hmem

/-- With no dirty row anywhere, the push body is empty. -/
theorem pushBody_eq_nil (entityNames : List String) (db : LocalDB)
    (h : ∀ e ∈ entityNames, (dirtyRows (tableOf db e)).isEmpty = true) :
    pushBody entityNames db = [] := by
  induction entityNames with
  | nil => rfl
  | cons a t ih =>
    simp only [pushBody, List.filterMap_cons, h a (List.mem_cons_self a t)]
    exact ih (fun e hexp => h e (List.mem_cons_of_mem a hexp))

/-- C3: the push request body contains exactly the entities having at
least one dirty row, each mapped to all of its dirty rows with the
`isSuitableForPush` field removed; when no entity has a dirty row, no push
request is made and the phase reports success. -/
theorem c3_push_payload_exactly_dirty_rows
    (wl entityNames : List String) (db : LocalDB) (resp : PushResponse) :
    ((pushBody entityNames db).map (fun p => p.1) =
      entityNames.filter (fun e => !(dirtyRows (tableOf db e)).isEmpty)) ∧
    (∀ e, e ∈ entityNames → (dirtyRows (tableOf db e)).isEmpty = false →
      (pushBody entityNames db).lookup e =
        some ((dirtyRows (tableOf db e)).map stripFlag)) ∧
    ((∀ e ∈ entityNames, (dirtyRows (tableOf db e)).isEmpty = true) →
      (syncPush wl entityNames db resp).request = none ∧
      (syncPush wl entityNames db resp).outcome = .ok true) := by
  refine ⟨pushBody_keys entityNames db,
    fun e he hd => pushBody_lookup entityNames db e he hd,
    fun h => ?_⟩
  have hb : pushBody entityNames db = [] := pushBody_eq_nil entityNames db h
  constructor <;> simp [syncPush, hb]

/-- C3 witness: with one dirty row in `A`, none in `B`, the payload keys
are exactly `A` and the dirty row is sent stripped of its flag; with no
dirty rows at all, no request is made and the phase succeeds. -/
theorem c3_push_payload_exactly_dirty_rows_witness :
    ((pushBody ["A", "B"]
        [("A", [⟨"a1", some 1, none, []⟩, ⟨"a2", some 0, none, []⟩]), ("B", [])]).map
        (fun p => p.1) = ["A"]) ∧
    ((pushBody ["A", "B"]
        [("A", [⟨"a1", some 1, none, []⟩, ⟨"a2", some 0, none, []⟩]), ("B", [])]).lookup
        "A" = some [⟨"a1", none, none, []⟩]) ∧
    ((syncPush [] ["A", "B"] [("A", []), ("B", [])] ⟨200, none⟩).request = none ∧
      (syncPush [] ["A", "B"] [("A", []), ("B", [])] ⟨200, none⟩).outcome = .ok true) := by
  refine ⟨?_, ?_, ?_⟩
  · have := (c3_push_payload_exactly_dirty_rows [] ["A", "B"]
      [("A", [⟨"a1", some 1, none, []⟩, ⟨"a2", some 0, none, []⟩]), ("B", [])]
      ⟨200, none⟩).1
    exact this
  · have := (c3_push_payload_exactly_dirty_rows [] ["A", "B"]
      [("A", [⟨"a1", some 1, none, []⟩, ⟨"a2", some 0, none, []⟩]), ("B", [])]
      ⟨200, none⟩).2.1 "A" (by simp) rfl
    exact this
  · exact (c3_push_payload_exactly_dirty_rows [] ["A", "B"]
      [("A", []), ("B", [])] ⟨200, none⟩).2.2 (by intro e hexp; fin_cases hexp <;> rfl)

/-! ## Claim about the soft "try later" push outcome (C1) -/

/-- A one-entity database with a single dirty row. -/
def c1db : LocalDB := [("A", [⟨"a1", some 1, none, []⟩])]

/-- C1 counterexample: a push response that carries the try-later
error-code 42 in its body but arrives with HTTP status 200 and
`success: false` makes `sync()` reject with a push `DatabaseSyncError`
(code 42) instead of resolving — the 42 code is only recognized on
non-200 responses. -/
theorem c1_counterexample :
    (sync [] ["A"] c1db ⟨200, some ⟨false, some 42, [], []⟩⟩
      ⟨200, some ⟨true, none, []⟩⟩ SyncOptions.defaults).thrown
      = some (.pushErr 42) := rfl

/-- C1 (amended): when the push request's response has non-200 status and
its body carries error-code 42, `sync()` resolves without throwing, the
pull phase of that invocation is skipped, the local database (including
every dirty flag) is unchanged, and a subsequent `sync()` with no
intervening writes or pulls submits an identical push payload whatever its
own responses are. -/
theorem c1_try_later_soft_push
    (wl entityNames : List String) (db : LocalDB)
    (pushResp : PushResponse) (pullResp : PullResponse)
    (resp2 : PushResponse) (pullResp2 : PullResponse)
    (hstatus : pushResp.status ≠ 200)
    (hcode : pushResp.body.bind (fun b => b.errorCode) = some 42)
    (hdirty : (pushBody entityNames db).isEmpty = false) :
    sync wl entityNames db pushResp pullResp SyncOptions.defaults =
      ⟨some (pushBody entityNames db), none, db, none⟩ ∧
    (sync wl entityNames db resp2 pullResp2 SyncOptions.defaults).pushRequest =
      some (pushBody entityNames db) := by
  constructor
  · cases hb : pushResp.body with
    | none => rw [hb] at hcode; cases hcode
    | some b =>
      have hbe : b.errorCode = some 42 := by
        rw [hb] at hcode
        simpa using hcode
      have hpush : syncPush wl entityNames db pushResp =
          ⟨some (pushBody entityNames db), .ok false⟩ := by
        simp only [syncPush, hdirty, Bool.false_eq_true, if_false, hb]
        rw [if_pos hstatus, if_pos hbe]
      simp only [sync, SyncOptions.defaults, hpush]
      rfl
  · have hreq : (syncPush wl entityNames db resp2).request =
        some (pushBody entityNames db) := by
      simp only [syncPush, hdirty, Bool.false_eq_true, if_false]
    simp only [sync, SyncOptions.defaults]
    cases ho : (syncPush wl entityNames db resp2).outcome with
    | error e => simp [ho, hreq]
    | ok succ =>
      cases succ
      · simp [ho, hreq]
      · cases hp : (syncPull entityNames db pullResp2 false).2 <;>
          simp [ho, hreq, hp]

/-- C1 witness: a 503-style response with body error-code 42 on a
database with one dirty row — sync resolves, skips the pull, leaves the
database unchanged and the push payload is reproducible. -/
theorem c1_try_later_soft_push_witness :
    ((⟨500, some ⟨false, some 42, [], []⟩⟩ : PushResponse).status ≠ 200) ∧
    ((⟨500, some ⟨false, some 42, [], []⟩⟩ : PushResponse).body.bind
        (fun b => b.errorCode) = some 42) ∧
    ((pushBody ["A"] c1db).isEmpty = false) ∧
    sync [] ["A"] c1db ⟨500, some ⟨false, some 42, [], []⟩⟩
        ⟨200, some ⟨true, none, []⟩⟩ SyncOptions.defaults =
      ⟨some (pushBody ["A"] c1db), none, c1db, none⟩ :=
  ⟨by decide, rfl, rfl,
   (c1_try_later_soft_push [] ["A"] c1db ⟨500, some ⟨false, some 42, [], []⟩⟩
      ⟨200, some ⟨true, none, []⟩⟩ ⟨500, some ⟨false, some 42, [], []⟩⟩
      ⟨200, some ⟨true, none, []⟩⟩ (by decide) rfl rfl).1⟩

/-! ## Claim about the pull merge (C4) -/

/-- Primary keys of a table. -/
def rowUuids (rows : List Row) : List String := rows.map (fun r => r.uuid)

/-- The cumulative effect of a batch of puts on one row slot: the row is
replaced by each batch element sharing its key, in order. -/
def applyPuts (B : List Row) (x : Row) : Row :=
  B.foldl (fun y b => if y.uuid = b.uuid then b else y) x

/-- One put step never changes the key of a slot. -/
theorem putStep_uuid (y b : Row) :
    (if y.uuid = b.uuid then b else y).uuid = y.uuid := by
  split
  · next h => exact h.symm
  · rfl

/-- A batch of puts never changes the key of a slot. -/
theorem applyPuts_uuid (B : List Row) (x : Row) :
    (applyPuts B x).uuid = x.uuid := by
  induction B generalizing x with
  | nil => rfl
  | cons b B ih =>
    show (applyPuts B (if x.uuid = b.uuid then b else x)).uuid = x.uuid
    rw [ih, putStep_uuid]

/-- A batch with no element sharing the slot's key leaves the slot
unchanged. -/
theorem applyPuts_of_no_match (B : List Row) (x : Row)
    (h : ∀ b ∈ B, b.uuid ≠ x.uuid) : applyPuts B x = x := by
  induction B generalizing x with
  | nil => rfl
  | cons b B ih =>
    show applyPuts B (if x.uuid = b.uuid then b else x) = x
    rw [if_neg (fun hh => h b (List.mem_cons_self b B) hh.symm)]
    exact ih x (fun c hc => h c (List.mem_cons_of_mem b hc))

/-- Two slots with the same key collapse to the same row once the batch
contains a put for that key. -/
theorem applyPuts_congr_of_match (B : List Row) (y z : Row)
    (hm : ∃ b ∈ B, b.uuid = y.uuid) (he : y.uuid = z.uuid) :
    applyPuts B y = applyPuts B z := by
  induction B generalizing y z with
  | nil => rcases hm with ⟨b, hb, _⟩; cases hb
  | cons c B ih =>
    show applyPuts B (if y.uuid = c.uuid then c else y) =
      applyPuts B (if z.uuid = c.uuid then c else z)
    by_cases hyc : y.uuid = c.uuid
    · rw [if_pos hyc, if_pos (he ▸ hyc)]
    · rw [if_neg hyc, if_neg (fun hh => hyc (he.trans hh))]
      rcases hm with ⟨b, hb, hbu⟩
      rcases List.mem_cons.1 hb with rfl | hbB
      · exact absurd hbu.symm hyc
      · exact ih y z ⟨b, hbB, hbu⟩ he

/-- Applying the same batch to a slot twice is the same as applying it
once. -/
theorem applyPuts_idem (B : List Row) (x : Row) :
    applyPuts B (applyPuts B x) = applyPuts B x := by
  induction B generalizing x with
  | nil => rfl
  | cons b B ih =>
    by_cases hxb : x.uuid = b.uuid
    · show applyPuts B
        (if (applyPuts B (if x.uuid = b.uuid then b else x)).uuid = b.uuid then b
         else applyPuts B (if x.uuid = b.uuid then b else x)) = _
      rw [if_pos hxb]
      rw [if_pos (by rw [applyPuts_uuid])]
      show applyPuts B b = applyPuts (b :: B) x
      show applyPuts B b = applyPuts B (if x.uuid = b.uuid then b else x)
      rw [if_pos hxb]
    · show applyPuts B
        (if (applyPuts B (if x.uuid = b.uuid then b else x)).uuid = b.uuid then b
         else applyPuts B (if x.uuid = b.uuid then b else x)) = _
      rw [if_neg hxb, if_neg (by rw [applyPuts_uuid]; exact hxb)]
      show applyPuts B (applyPuts B x) = applyPuts B (if x.uuid = b.uuid then b else x)
      rw [if_neg hxb]
      exact ih x

/-- Membership of a key in a table is what `putRow`'s guard tests. -/
theorem any_uuid_iff_mem (rows : List Row) (u : String) :
    rows.any (fun x => x.uuid = u) = true ↔ u ∈ rowUuids rows := by
  rw [List.any_eq_true]
  constructor
  · rintro ⟨x, hx, hxe⟩
    exact List.mem_map.2 ⟨x, hx, by simpa using hxe⟩
  · intro h
    rcases List.mem_map.1 h with ⟨x, hx, hxe⟩
    exact ⟨x, hx, by simpa using hxe⟩

/-- Composing the key projection with an in-place put step is the key
projection. -/
theorem map_uuid_putStep (rows : List Row) (r : Row) :
    List.map ((fun x => x.uuid) ∘ fun x => if x.uuid = r.uuid then r else x) rows =
      List.map (fun x => x.uuid) rows :=
  List.map_congr_left (fun x _ => putStep_uuid x r)

/-- `putRow` preserves every existing key. -/
theorem mem_rowUuids_putRow (rows : List Row) (r : Row) (u : String)
    (h : u ∈ rowUuids rows) : u ∈ rowUuids (putRow rows r) := by
  rw [putRow]
  split
  · rw [rowUuids, List.map_map, map_uuid_putStep]
    exact h
  · rw [rowUuids, List.map_append]
    exact List.mem_append_left _ h

/-- After `putRow rows r`, the key of `r` is present. -/
theorem uuid_mem_putRow_self (rows : List Row) (r : Row) :
    r.uuid ∈ rowUuids (putRow rows r) := by
  rw [putRow]
  split
  · next h =>
    rw [rowUuids, List.map_map, map_uuid_putStep]
    exact (any_uuid_iff_mem rows r.uuid).1 h
  · rw [rowUuids, List.map_append]
    exact List.mem_append_right _ (by simp)

/-- `bulkPut` preserves every existing key. -/
theorem mem_rowUuids_bulkPut (rows : List Row) (B : List Row) (u : String)
    (h : u ∈ rowUuids rows) : u ∈ rowUuids (bulkPut rows B) := by
  induction B generalizing rows with
  | nil => exact h
  | cons b B ih => exact ih (putRow rows b) (mem_rowUuids_putRow rows b u h)

/-- After `bulkPut`, every key of the batch is present. -/
theorem batch_uuid_mem_bulkPut (rows : List Row) (B : List Row) :
    ∀ b ∈ B, b.uuid ∈ rowUuids (bulkPut rows B) := by
  induction B generalizing rows with
  | nil => intro b hb; cases hb
  | cons c B ih =>
    intro b hb
    rcases List.mem_cons.1 hb with rfl | hbB
    · exact mem_rowUuids_bulkPut (putRow rows b) B b.uuid (uuid_mem_putRow_self rows b)
    · exact ih (putRow rows c) b hbB

/-- When the key is already present, `putRow` is an in-place map. -/
theorem putRow_eq_map_of_mem (rows : List Row) (r : Row)
    (h : r.uuid ∈ rowUuids rows) :
    putRow rows r = rows.map (fun x => if x.uuid = r.uuid then r else x) := by
  rw [putRow, if_pos ((any_uuid_iff_mem rows r.uuid).2 h)]

/-- An in-place put step does not change the key set. -/
theorem rowUuids_map_putStep (rows : List Row) (r : Row) :
    rowUuids (rows.map (fun x => if x.uuid = r.uuid then r else x)) =
      rowUuids rows := by
  rw [rowUuids, List.map_map, map_uuid_putStep]
  rfl

/-- When every key of the batch is already present, `bulkPut` acts as a
map applying the cumulative put effect to every slot. -/
theorem bulkPut_eq_map_of_all_mem (rows : List Row) (B : List Row)
    (h : ∀ b ∈ B, b.uuid ∈ rowUuids rows) :
    bulkPut rows B = rows.map (applyPuts B) := by
  induction B generalizing rows with
  | nil =>
    show rows = rows.map (applyPuts [])
    rw [List.map_congr_left (fun x _ => (rfl : applyPuts [] x = x))]
    exact (List.map_id rows).symm
  | cons b B ih =>
    show bulkPut (putRow rows b) B = _
    rw [putRow_eq_map_of_mem rows b (h b (List.mem_cons_self b B))]
    rw [ih (rows.map (fun x => if x.uuid = b.uuid then b else x))
      (fun c hc => (rowUuids_map_putStep rows b).symm ▸ h c (List.mem_cons_of_mem b hc))]
    rw [List.map_map]
    rfl

/-- Every row of `bulkPut rows B` comes from `rows` or from `B`. -/
theorem mem_bulkPut_cases (rows : List Row) (B : List Row) (x : Row)
    (hx : x ∈ bulkPut rows B) : x ∈ rows ∨ x ∈ B := by
  induction B generalizing rows with
  | nil => exact Or.inl hx
  | cons c B ih =>
    rcases ih (putRow rows c) hx with hput | hB
    · rw [putRow] at hput
      split at hput
      · rcases List.mem_map.1 hput with ⟨a, ha, hstep⟩
        by_cases hac : a.uuid = c.uuid
        · rw [if_pos hac] at hstep
          exact Or.inr (hstep ▸ List.mem_cons_self c B)
        · rw [if_neg hac] at hstep
          exact Or.inl (hstep ▸ ha)
      · rcases List.mem_append.1 hput with ha | hc
        · exact Or.inl ha
        · exact Or.inr (List.mem_cons.2 (Or.inl (List.mem_singleton.1 hc)))
    · exact Or.inr (List.mem_cons_of_mem c hB)

/-- A row of `bulkPut rows B` whose key is not touched by `B` comes from
`rows`. -/
theorem mem_of_no_match (rows : List Row) (B : List Row) (x : Row)
    (hx : x ∈ bulkPut rows B) (h : ∀ b ∈ B, b.uuid ≠ x.uuid) : x ∈ rows := by
  induction B generalizing rows with
  | nil => exact hx
  | cons c B ih =>
    have hput : x ∈ putRow rows c :=
      ih (putRow rows c) hx (fun b hb => h b (List.mem_cons_of_mem c hb))
    have hcx : c.uuid ≠ x.uuid := h c (List.mem_cons_self c B)
    rw [putRow] at hput
    split at hput
    · rcases List.mem_map.1 hput with ⟨a, ha, hstep⟩
      by_cases hac : a.uuid = c.uuid
      · rw [if_pos hac] at hstep
        exact absurd (hstep ▸ rfl) hcx
      · rw [if_neg hac] at hstep
        exact hstep ▸ ha
    · rcases List.mem_append.1 hput with ha | hc
      · exact ha
      · exact absurd ((List.mem_singleton.1 hc) ▸ rfl) hcx

/-- A row of `putRow rows r` carrying the key of `r` is `r` itself. -/
theorem eq_of_mem_putRow_uuid (rows : List Row) (r x : Row)
    (hx : x ∈ putRow rows r) (hu : x.uuid = r.uuid) : x = r := by
  rw [putRow] at hx
  split at hx
  · rcases List.mem_map.1 hx with ⟨a, _, hstep⟩
    by_cases hac : a.uuid = r.uuid
    · rw [if_pos hac] at hstep
      exact hstep.symm
    · rw [if_neg hac] at hstep
      exact absurd (hstep ▸ hu) hac
  · next hany =>
    rcases List.mem_append.1 hx with ha | hr
    · exact absurd (List.any_eq_true.2 ⟨x, ha, by simpa using hu⟩) hany
    · exact List.mem_singleton.1 hr

/-- Every row of `bulkPut rows B` is a fixed point of the cumulative put
effect of `B`. -/
theorem applyPuts_fix_of_mem_bulkPut (rows : List Row) (B : List Row) :
    ∀ x ∈ bulkPut rows B, applyPuts B x = x := by
  induction B generalizing rows with
  | nil => intro x _; rfl
  | cons c B ih =>
    intro x hx
    show applyPuts B (if x.uuid = c.uuid then c else x) = x
    by_cases hxc : x.uuid = c.uuid
    · rw [if_pos hxc]
      by_cases hm : ∃ b ∈ B, b.uuid = c.uuid
      · have h1 : applyPuts B c = applyPuts B x :=
          applyPuts_congr_of_match B c x hm hxc.symm
        rw [h1]
        exact ih (putRow rows c) x hx
      · have hnm : ∀ b ∈ B, b.uuid ≠ c.uuid := by
          intro b hb hbc
          exact hm ⟨b, hb, hbc⟩
        have hxrow : x ∈ putRow rows c :=
          mem_of_no_match (putRow rows c) B x hx (fun b hb => hxc ▸ hnm b hb)
        have hxeq : x = c := eq_of_mem_putRow_uuid rows c x hxrow hxc
        rw [applyPuts_of_no_match B c hnm, hxeq]
    · rw [if_neg hxc]
      exact ih (putRow rows c) x hx

/-- A map that fixes every member is the identity. -/
theorem map_eq_self_of_fix {α : Type} (l : List α) (f : α → α)
    (h : ∀ x ∈ l, f x = x) : l.map f = l := by
  rw [List.map_congr_left h]
  exact List.map_id l

/-- `bulkPut` of the same batch twice equals `bulkPut` once. -/
theorem bulkPut_idem (rows : List Row) (B : List Row) :
    bulkPut (bulkPut rows B) B = bulkPut rows B := by
  rw [bulkPut_eq_map_of_all_mem (bulkPut rows B) B (batch_uuid_mem_bulkPut rows B)]
  exact map_eq_self_of_fix _ _ (applyPuts_fix_of_mem_bulkPut rows B)

/-- `bulkPut` of a concatenated batch is sequential `bulkPut`. -/
theorem bulkPut_append (rows : List Row) (B1 B2 : List Row) :
    bulkPut rows (B1 ++ B2) = bulkPut (bulkPut rows B1) B2 :=
  List.foldl_append _ _ _ _

/-- Contents of a table after `updateTable`. -/
theorem tableOf_updateTable (db : LocalDB) (e : String) (f : List Row → List Row)
    (a : String) :
    tableOf (updateTable db e f) a = if a = e then f (tableOf db e) else tableOf db a := by
  induction db with
  | nil =>
    by_cases h : a = e
    · subst h
      simp [updateTable, tableOf, List.find?]
    · rw [if_neg h]
      simp only [updateTable, tableOf, List.find?]
      have : (decide (e = a)) = false := by
        simp only [decide_eq_false_iff_not]
        exact fun hh => h hh.symm
      simp [this]
  | cons p t ih =>
    by_cases hp : p.1 = e
    · simp only [updateTable, if_pos hp]
      by_cases h : a = e
      · subst h
        have hpa : (decide (p.1 = a)) = true := by simpa using hp
        simp [tableOf, List.find?, hpa]
      · rw [if_neg h]
        have hpa : (decide (p.1 = a)) = false := by
          simp only [decide_eq_false_iff_not]
          exact fun hh => h (hh.symm.trans hp)
        simp [tableOf, List.find?, hpa]
    · simp only [updateTable, if_neg hp]
      by_cases h : p.1 = a
      · have hae : ¬(a = e) := fun hh => hp (h.trans hh)
        rw [if_neg hae]
        have hpa : (decide (p.1 = a)) = true := by simpa using h
        simp [tableOf, List.find?, hpa]
      · have hpa : (decide (p.1 = a)) = false := by simpa using h
        have hpe : (decide (p.1 = e)) = false := by simpa using hp
        simp only [tableOf, List.find?, hpa, hpe] at ih ⊢
        exact ih

/-- All batches of a pull response addressed to one entity, concatenated
in response order, each record's dirty flag forced to `0`. -/
def concatBatches (data : List (String × List Row)) (e : String) : List Row :=
  match data with
  | [] => []
  | p :: rest =>
    if p.1 = e then p.2.map setFlagZero ++ concatBatches rest e
    else concatBatches rest e

/-- Per-table view of the pull merge: the merge bulk-puts into each table
the concatenation of the response batches addressed to it. -/
theorem tableOf_monitoredBulkPut (db : LocalDB) (data : List (String × List Row))
    (e : String) :
    tableOf (monitoredBulkPut db data) e = bulkPut (tableOf db e) (concatBatches data e) := by
  induction data generalizing db with
  | nil => rfl
  | cons p rest ih =>
    show tableOf (monitoredBulkPut (updateTable db p.1 _) rest) e = _
    rw [ih, tableOf_updateTable]
    by_cases h : e = p.1
    · rw [if_pos h, concatBatches, if_pos h.symm, bulkPut_append, h]
    · rw [if_neg h, concatBatches, if_neg (fun hh => h hh.symm)]

/-- Every record of a concatenated response batch carries dirty flag 0. -/
theorem concatBatches_flag_zero (data : List (String × List Row)) (e : String) :
    ∀ x ∈ concatBatches data e, x.isSuitableForPush = some 0 := by
  induction data with
  | nil => intro x hx; cases hx
  | cons p rest ih =>
    intro x hx
    rw [concatBatches] at hx
    split at hx
    · rcases List.mem_append.1 hx with hm | hm
      · rcases List.mem_map.1 hm with ⟨r, _, hr⟩
        rw [← hr]
        rfl
      · exact ih x hm
    · exact ih x hx

/-- C4: the pull merge is idempotent — applying the same pull response
twice leaves every entity table in the same state as applying it once;
every record it writes is upserted by `uuid` with its dirty flag forced to
`0` (each merged row either predates the merge or carries flag 0); and
under the sync-transaction tag both write hooks perform no stamping or
re-dirtying at all. -/
theorem c4_pull_merge_idempotent (db : LocalDB) (data : List (String × List Row)) :
    (∀ e, tableOf (monitoredBulkPut (monitoredBulkPut db data) data) e =
       tableOf (monitoredBulkPut db data) e) ∧
    (∀ e x, x ∈ tableOf (monitoredBulkPut db data) e →
       x ∈ tableOf db e ∨ x.isSuitableForPush = some 0) ∧
    (∀ (env : WriteEnv) (obj : JsObj), createHook true env obj = obj) ∧
    (∀ (nowISO : String) (mods : JsObj), updateHookExtra true nowISO mods = none) := by
  refine ⟨?_, ?_, fun env obj => rfl, fun nowISO mods => rfl⟩
  · intro e
    rw [tableOf_monitoredBulkPut, tableOf_monitoredBulkPut]
    exact bulkPut_idem (tableOf db e) (concatBatches data e)
  · intro e x hx
    rw [tableOf_monitoredBulkPut] at hx
    rcases mem_bulkPut_cases (tableOf db e) (concatBatches data e) x hx with h | h
    · exact Or.inl h
    · exact Or.inr (concatBatches_flag_zero data e x h)

/-- C4 witness: merging one response row into an empty store yields a row
with dirty flag 0, and a second application of the same response leaves
the `A` table unchanged. -/
theorem c4_pull_merge_idempotent_witness :
    tableOf (monitoredBulkPut (monitoredBulkPut [] [("A", [⟨"a1", some 1, some 3, []⟩])])
        [("A", [⟨"a1", some 1, some 3, []⟩])]) "A" =
      tableOf (monitoredBulkPut [] [("A", [⟨"a1", some 1, some 3, []⟩])]) "A" ∧
    ((⟨"a1", some 0, some 3, []⟩ : Row) ∈
        tableOf (monitoredBulkPut [] [("A", [⟨"a1", some 1, some 3, []⟩])]) "A") ∧
    ((⟨"a1", some 0, some 3, []⟩ : Row) ∈ tableOf ([] : LocalDB) "A" ∨
      (⟨"a1", some 0, some 3, []⟩ : Row).isSuitableForPush = some 0) :=
  ⟨(c4_pull_merge_idempotent [] [("A", [⟨"a1", some 1, some 3, []⟩])]).1 "A",
   List.mem_singleton.2 rfl,
   (c4_pull_merge_idempotent [] [("A", [⟨"a1", some 1, some 3, []⟩])]).2.1 "A"
     ⟨"a1", some 0, some 3, []⟩ (List.mem_singleton.2 rfl)⟩

end LambdaConnect
